import Mathlib

/-!
Verification of the LockBox container manager (src/LockBox/src/lbox.py and
src/LockBox/src/lbox_create.py) against its natural-language specification.

The Python source is shallowly embedded: the container state record becomes a
structure, each state-mutating operation becomes a function on that structure,
and effectful context (which host ports are bound, whether files exist, exit
codes of subprocesses) is supplied by explicit environment records. Machine
integers in the source are plain Python ints, so `Nat`/`Int` model them
without wrap-around.
-/

namespace LockBox

/-- The per-container state record, after the dict literal written by
`LinuxEngine.run` / `WindowsEngine.run` (lbox.py lines 784-797 and 567-580).
The `mounts` key is absent at creation and added later by the supervisor;
it is modelled as a list that is empty at creation. -/
structure ContState where
  id : String
  name : Option String
  image : String
  status : String
  ports : List String
  volumes : List String
  envs : List String
  command : String
  workdir : String
  created : String
  root : String
  restart : String
  restart_count : Nat
  labels : List (String × String)
  network : String
  service_enabled : Bool
  service_name : Option String
  mounts : List String
deriving Repr, DecidableEq

/-- `LinuxEngine.stop` / `WindowsEngine.stop` (lbox.py lines 828-835, 626-634):
after looking the record up, both set `s['status'] = 'exited'` and save; no
other key of the record is touched (the service stop and `wsl --terminate`
calls do not modify the record). -/
def stopRecord (s : ContState) : ContState :=
  { s with status := "exited" }

/-- Python truthiness of an optional string (`if not cmd`, `x or "no"`):
`None` and the empty string are falsy. -/
def pyFalsy : Option String → Bool
  | none => true
  | some s => s == ""

theorem pyFalsy_none : pyFalsy none = true := rfl

/-- Python's `str.startswith`, written over the character lists so that it
reduces in the kernel. -/
def pyStartsWith (s p : String) : Bool :=
  p.data.isPrefixOf s.data

/-- The decision block of `internal_daemon` (lbox.py lines 945-954):

    should_restart = False
    if restart_policy == 'always': should_restart = True
    elif restart_policy == 'on-failure' and exit_code != 0: should_restart = True
    elif restart_policy.startswith('unless-stopped'):
        should_restart = s.get('status') != 'exited'
-/
def daemonShouldRestart (policy : String) (exitCode : Int) (status : String) : Bool :=
  if policy = "always" then true
  else if policy = "on-failure" ∧ exitCode ≠ 0 then true
  else if pyStartsWith policy "unless-stopped" then decide (status ≠ "exited")
  else false

/-- The tail of the supervisor loop of `internal_daemon` (lbox.py lines
941-966), from re-loading the record after the entrypoint exited: the pair is
the record as persisted by `save_state`, and the boolean is whether the loop
continues (`continue`, after the 1s backoff) or the daemon returns.

    if should_restart and s.get('status') != 'exited':
        s['restart_count'] = restart_count + 1
        s['status'] = 'restarting'
        save_state(cid, s); time.sleep(1); continue
    s['status'] = 'exited'; save_state(cid, s); return
-/
def daemonFinish (s : ContState) (exitCode : Int) : ContState × Bool :=
  if daemonShouldRestart s.restart exitCode s.status ∧ s.status ≠ "exited" then
    ({ s with restart_count := s.restart_count + 1, status := "restarting" }, true)
  else
    ({ s with status := "exited" }, false)

/-- The restart decision exactly as claim C1 (spec section 4.3 step 7) states
it: `no` stops, `always` restarts, `on-failure` restarts iff the exit code is
non-zero, `unless-stopped` restarts iff the current status is not `exited`. -/
def claimedRestartDecision (policy : String) (exitCode : Int) (status : String) : Bool :=
  if policy = "no" then false
  else if policy = "always" then true
  else if policy = "on-failure" then decide (exitCode ≠ 0)
  else if policy = "unless-stopped" then decide (status ≠ "exited")
  else false

/-- Every write of an already-existing container record found in the source.
The supervisor's writes (`internal_daemon`, lbox.py lines 889-890, 898-899,
929-930, 957-959, 964-965), the CLI `stop` (828-835, 626-634), and the
service-registration updates (238-241, 806-809, 591-593). Creation by `run`
starts a fresh record and is not a write of an existing one. -/
inductive RecordWrite
  | daemonError
  | daemonRunning
  | daemonMounts (mp : List String)
  | daemonRestart
  | daemonExited
  | stopCli
  | registerService (sname : String)
  | serviceFallback
deriving Repr, DecidableEq

/-- Effect of each write of `RecordWrite` on the record, as in the source. -/
def applyWrite : RecordWrite → ContState → ContState
  | RecordWrite.daemonError, s => { s with status := "error" }
  | RecordWrite.daemonRunning, s => { s with status := "running" }
  | RecordWrite.daemonMounts mp, s => { s with mounts := mp }
  | RecordWrite.daemonRestart, s =>
      { s with restart_count := s.restart_count + 1, status := "restarting" }
  | RecordWrite.daemonExited, s => { s with status := "exited" }
  | RecordWrite.stopCli, s => stopRecord s
  | RecordWrite.registerService n, s =>
      { s with service_enabled := true, service_name := some n }
  | RecordWrite.serviceFallback, s =>
      { s with service_enabled := false, service_name := none }

/-- A concrete record used to instantiate theorems on concrete inputs. -/
def sampleState : ContState :=
  { id := "c0ffee000001", name := some "web", image := "app", status := "running",
    ports := ["8080:80"], volumes := [], envs := [], command := "python app.py",
    workdir := "/app", created := "2026-01-01T00:00:00", root := "/opt/containers/c0ffee000001",
    restart := "no", restart_count := 0, labels := [], network := "bridge",
    service_enabled := false, service_name := none, mounts := [] }

/-- C9. `stop` on an existing record sets `status` to `exited` unconditionally
(whatever the prior status, including `starting`, `restarting` or `error`) and
leaves every other field of the persisted record unchanged. -/
theorem stop_sets_exited_frame (s : ContState) :
    (stopRecord s).status = "exited" ∧
    (stopRecord s).id = s.id ∧
    (stopRecord s).name = s.name ∧
    (stopRecord s).image = s.image ∧
    (stopRecord s).ports = s.ports ∧
    (stopRecord s).volumes = s.volumes ∧
    (stopRecord s).envs = s.envs ∧
    (stopRecord s).command = s.command ∧
    (stopRecord s).workdir = s.workdir ∧
    (stopRecord s).created = s.created ∧
    (stopRecord s).root = s.root ∧
    (stopRecord s).restart = s.restart ∧
    (stopRecord s).restart_count = s.restart_count ∧
    (stopRecord s).labels = s.labels ∧
    (stopRecord s).network = s.network ∧
    (stopRecord s).service_enabled = s.service_enabled ∧
    (stopRecord s).service_name = s.service_name ∧
    (stopRecord s).mounts = s.mounts := by
  repeat' constructor

/-- C8. Across every write of an existing record found in the source,
`restart_count` never decreases: the supervisor's restart write is the only
one that changes it, and it increments. -/
theorem restart_count_monotone (w : RecordWrite) (s : ContState) :
    s.restart_count ≤ (applyWrite w s).restart_count := by
  cases w <;> simp [applyWrite, stopRecord]

/-- C1 counterexample. With restart policy `always`, an exit observed while
the record's status is `exited` (an external `stop` ran during the entrypoint)
does NOT restart — the code guards every restart with
`s.get('status') != 'exited'` — although the claim says `always` restarts. -/
theorem internal_daemon_always_ignores_external_stop :
    claimedRestartDecision "always" 0 "exited" = true ∧
    (daemonFinish { sampleState with restart := "always", status := "exited" } 0).2 = false ∧
    (daemonFinish { sampleState with restart := "always", status := "exited" } 0).1.status
      = "exited" := by
  refine ⟨by decide, ?_, ?_⟩ <;>
    simp [daemonFinish, daemonShouldRestart, sampleState]

/-- C1 amended. The restart consult of `internal_daemon` yields the claimed
per-policy decision, but every restart is additionally guarded by the record's
current status not being `exited`: `no` stops; `always` and `unless-stopped`
restart iff status is not `exited`; `on-failure` restarts iff the exit code is
non-zero and status is not `exited`. On restart the record is persisted with
`restart_count` incremented and status `restarting` and the loop continues;
otherwise status `exited` is persisted and the daemon returns. -/
theorem internal_daemon_restart_policy_amended (s : ContState) (e : Int) :
    (s.restart = "no" → daemonFinish s e = ({ s with status := "exited" }, false)) ∧
    ((s.restart = "always" ∨ s.restart = "unless-stopped") →
      daemonFinish s e =
        if s.status = "exited" then ({ s with status := "exited" }, false)
        else ({ s with restart_count := s.restart_count + 1, status := "restarting" }, true)) ∧
    (s.restart = "on-failure" →
      daemonFinish s e =
        if e ≠ 0 ∧ s.status ≠ "exited" then
          ({ s with restart_count := s.restart_count + 1, status := "restarting" }, true)
        else ({ s with status := "exited" }, false)) := by
  have hns : pyStartsWith "no" "unless-stopped" = false := by decide
  have hus : pyStartsWith "unless-stopped" "unless-stopped" = true := by decide
  have hos : pyStartsWith "on-failure" "unless-stopped" = false := by decide
  refine ⟨?_, ?_, ?_⟩
  · intro h
    simp [daemonFinish, daemonShouldRestart, h, hns]
  · rintro (h | h) <;>
    · rw [daemonFinish, daemonShouldRestart, h]
      by_cases hst : s.status = "exited" <;> simp [hst, hus]
  · intro h
    rw [daemonFinish, daemonShouldRestart, h]
    by_cases he : e = 0 <;> by_cases hst : s.status = "exited" <;> simp [he, hst, hos]

/-- C1 amended, witness: with policy `on-failure`, exit code 1 and status
`running`, the daemon restarts with the count incremented. -/
theorem internal_daemon_restart_policy_amended_witness :
    daemonFinish { sampleState with restart := "on-failure" } 1 =
      ({ sampleState with
          restart := "on-failure", restart_count := 1, status := "restarting" }, true) := by
  have h := (internal_daemon_restart_policy_amended
    { sampleState with restart := "on-failure" } 1).2.2 rfl
  simpa [sampleState] using h

/-- The image sidecar record `images/<tag>.json` as read by `run`
(`json.load` then `meta.get("cmd")`, `meta.get("workdir", "/")`): `cmd` may be
null or absent (both `none`), `workdir` may be absent (`none`). -/
structure ImageMeta where
  cmd : Option String
  workdir : Option String
deriving Repr, DecidableEq

/-- Command/workdir resolution of `LinuxEngine.run` / `WindowsEngine.run`
(lbox.py lines 769-776 and 550-557), identical in both engines:

    workdir = "/"
    if not cmd:
        try:
            meta = json.load(open(.../f"{image}.json"))
            cmd = meta.get("cmd")
            workdir = meta.get("workdir", "/")
        except: pass
    if not cmd: cmd = "/bin/sh"

`sidecar = none` models the file being missing or unreadable (the `except`
path). The result is the `(command, workdir)` pair stored in the record. -/
def resolveCmdWorkdir (cmd0 : Option String) (sidecar : Option ImageMeta) : String × String :=
  let afterMeta : Option String × String :=
    if pyFalsy cmd0 then
      match sidecar with
      | some meta => (meta.cmd, meta.workdir.getD "/")
      | none => (cmd0, "/")
    else (cmd0, "/")
  (if pyFalsy afterMeta.1 then "/bin/sh" else afterMeta.1.getD "/bin/sh", afterMeta.2)

/-- Does `needle` occur as a contiguous run inside the character list?
Structurally recursive so that it reduces in the kernel. -/
def subOccurs (needle : List Char) : List Char → Bool
  | [] => needle.isEmpty
  | c :: rest => needle.isPrefixOf (c :: rest) || subOccurs needle rest

/-- Python's `needle in hay` on strings. -/
def strContainsSub (hay needle : String) : Bool :=
  subOccurs needle.data hay.data

/-- Python's `int(s)` on a decimal string: `none` when `int` would raise. -/
def pyInt (s : String) : Option Nat :=
  if s.data ≠ [] ∧ s.data.all (fun c => c.isDigit) then
    some (s.data.foldl (fun acc c => acc * 10 + (c.toNat - 48)) 0)
  else none

/-- Host-port extraction `int(p.split(':')[0])` of the port loop in `run`:
the characters before the first `:`, parsed as an integer; `none` when `int`
would raise. -/
def hostPortOf (p : String) : Option Nat :=
  pyInt (String.mk (p.data.takeWhile (fun c => !(c == ':'))))

/-- Result of a `run` invocation, up to and including the creation of the
state record: an error message printed with no record created, an uncaught
exception, or the record as first persisted by `save_state` (the spawning of
the supervisor and the start-polling that follow do not change whether a
record was created). -/
inductive RunOutcome
  | msg (m : String)
  | exn (m : String)
  | created (st : ContState)
deriving Repr, DecidableEq

/-- The effectful context consulted by `run`: `get_id_by_name` (does a record
with that name exist), `check_port_free`, existence of `images/<tag>.tar`, the
sidecar metadata, the generated container id, the timestamp, and the
containers directory. -/
structure RunEnv where
  nameExists : String → Bool
  portFree : Nat → Bool
  imageTarExists : Bool
  sidecar : Option ImageMeta
  newId : String
  now : String
  containersDir : String

/-- The port loop of `run` (lbox.py lines 763-764 and 544-545):

    for p in ports:
        if not check_port_free(int(p.split(':')[0])): return print(f"Error: Port {p} taken.")

Returns the outcome that aborts the loop, or `none` when every mapping's host
port is free. -/
def firstPortFailure (env : RunEnv) : List String → Option RunOutcome
  | [] => none
  | p :: rest =>
    match hostPortOf p with
    | none => some (RunOutcome.exn ("ValueError: invalid literal for int(): " ++ p))
    | some hp =>
      if env.portFree hp then firstPortFailure env rest
      else some (RunOutcome.msg ("Error: Port " ++ p ++ " taken."))

/-- The name-conflict test `if name and get_id_by_name(name)` of `run`. -/
def nameTakenCheck (env : RunEnv) (name : Option String) : Bool :=
  match name with
  | none => false
  | some n => !(n == "") && env.nameExists n

/-- The state record built by both engines' `run` (lbox.py lines 784-797 and
567-580). -/
def newRunRecord (env : RunEnv) (image : String) (name : Option String)
    (ports volumes envs : List String) (cmd0 : Option String)
    (restart_policy : Option String) (labels : List (String × String))
    (network : Option String) (as_service : Bool) : ContState :=
  let cw := resolveCmdWorkdir cmd0 env.sidecar
  { id := env.newId, name := name, image := image, status := "starting",
    ports := ports, volumes := volumes, envs := envs,
    command := cw.1, workdir := cw.2, created := env.now,
    root := env.containersDir ++ "/" ++ env.newId,
    restart := if pyFalsy restart_policy then "no" else restart_policy.getD "no",
    restart_count := 0, labels := labels,
    network := if pyFalsy network then "bridge" else network.getD "bridge",
    service_enabled := as_service, service_name := none, mounts := [] }

/-- `LinuxEngine.run` (lbox.py lines 760-798), through the first `save_state`:
name conflict, then the port loop, then the image existence check, then
command/workdir resolution and record creation. -/
def LinuxEngine_run (env : RunEnv) (image : String) (name : Option String)
    (ports volumes envs : List String) (cmd0 : Option String)
    (restart_policy : Option String) (labels : List (String × String))
    (network : Option String) (as_service : Bool) : RunOutcome :=
  if nameTakenCheck env name then
    RunOutcome.msg ("Error: Name '" ++ name.getD "" ++ "' taken.")
  else
    match firstPortFailure env ports with
    | some out => out
    | none =>
      if env.imageTarExists then
        RunOutcome.created (newRunRecord env image name ports volumes envs cmd0
          restart_policy labels network as_service)
      else RunOutcome.msg "Image missing."

/-- `WindowsEngine.run` (lbox.py lines 538-581), through the first
`save_state`: identical checks and record, with the Windows messages. -/
def WindowsEngine_run (env : RunEnv) (image : String) (name : Option String)
    (ports volumes envs : List String) (cmd0 : Option String)
    (restart_policy : Option String) (labels : List (String × String))
    (network : Option String) (as_service : Bool) : RunOutcome :=
  if nameTakenCheck env name then
    RunOutcome.msg ("Note: Container '" ++ name.getD "" ++ "' already exists. Skipping.")
  else
    match firstPortFailure env ports with
    | some out => out
    | none =>
      if env.imageTarExists then
        RunOutcome.created (newRunRecord env image name ports volumes envs cmd0
          restart_policy labels network as_service)
      else RunOutcome.msg ("Error: Image '" ++ image ++ "' not found.")

/-- A concrete environment in which host port 8080 is already bound and
everything else is nominal. -/
def busy8080Env : RunEnv :=
  { nameExists := fun _ => false, portFree := fun hp => !(hp == 8080),
    imageTarExists := true, sidecar := none, newId := "0123456789ab",
    now := "2026-01-01T00:00:00", containersDir := "/opt/lockbox/containers" }

/-- C2 counterexample. Running on mapping `8080:80` while host port 8080 is
taken prints `Error: Port 8080:80 taken.` — the message carries the whole
mapping, and the text `Port 8080 taken` claimed by the spec does not occur in
it. -/
theorem run_port_conflict_message_counterexample :
    LinuxEngine_run busy8080Env "web" none ["8080:80"] [] [] none none [] none false
      = RunOutcome.msg "Error: Port 8080:80 taken." ∧
    strContainsSub "Error: Port 8080:80 taken." "Port 8080 taken" = false := by
  constructor
  · rfl
  · decide

/-- C2 amended. When `run` is invoked with a port mapping whose host port is
already bound — the first mapping `8080:80` with port 8080 taken — the command
reports `Error: Port 8080:80 taken.` (the message names the whole mapping,
not just the host port) and produces no state record, on both engines. -/
theorem run_port_conflict_no_record (env : RunEnv) (image : String)
    (name : Option String) (rest volumes envs : List String) (cmd0 : Option String)
    (rp : Option String) (labels : List (String × String)) (net : Option String)
    (svc : Bool)
    (hname : nameTakenCheck env name = false)
    (hbusy : env.portFree 8080 = false) :
    LinuxEngine_run env image name ("8080:80" :: rest) volumes envs cmd0 rp labels net svc
      = RunOutcome.msg "Error: Port 8080:80 taken." ∧
    WindowsEngine_run env image name ("8080:80" :: rest) volumes envs cmd0 rp labels net svc
      = RunOutcome.msg "Error: Port 8080:80 taken." ∧
    (∀ st : ContState,
      LinuxEngine_run env image name ("8080:80" :: rest) volumes envs cmd0 rp labels net svc
        ≠ RunOutcome.created st) := by
  have hp : hostPortOf "8080:80" = some 8080 := by decide
  have hfail : firstPortFailure env ("8080:80" :: rest)
      = some (RunOutcome.msg "Error: Port 8080:80 taken.") := by
    rw [firstPortFailure, hp]
    simp [hbusy]
  refine ⟨?_, ?_, ?_⟩
  · rw [LinuxEngine_run, hfail]
    simp [hname]
  · rw [WindowsEngine_run, hfail]
    simp [hname]
  · intro st
    rw [LinuxEngine_run, hfail]
    simp [hname]

/-- C2 amended, witness at the concrete environment and mapping. -/
theorem run_port_conflict_no_record_witness :
    LinuxEngine_run busy8080Env "web" none ["8080:80"] [] [] none none [] none false
      = RunOutcome.msg "Error: Port 8080:80 taken." ∧
    WindowsEngine_run busy8080Env "web" none ["8080:80"] [] [] none none [] none false
      = RunOutcome.msg "Error: Port 8080:80 taken." ∧
    (∀ st : ContState,
      LinuxEngine_run busy8080Env "web" none ["8080:80"] [] [] none none [] none false
        ≠ RunOutcome.created st) :=
  run_port_conflict_no_record busy8080Env "web" none [] [] [] none none [] none false
    (by decide) (by decide)

/-- C10 counterexample. With no explicit command and a readable sidecar that
records a null `cmd` but workdir `/app`, the created record's command is
`/bin/sh` but its working directory is `/app`, taken from the sidecar — not
`/` as the claim states. -/
theorem run_default_workdir_counterexample :
    resolveCmdWorkdir none (some { cmd := none, workdir := some "/app" })
      = ("/bin/sh", "/app") ∧
    (resolveCmdWorkdir none (some { cmd := none, workdir := some "/app" })).2 ≠ "/" := by
  constructor
  · rfl
  · decide

/-- C10 amended. For a `run` with no explicit command: when the sidecar is
missing or unreadable, the created record has command `/bin/sh` and workdir
`/`; when the sidecar is readable but records a null (or absent, or empty)
`cmd`, the command defaults to `/bin/sh` while the workdir is taken from the
sidecar (defaulting to `/` only when the sidecar has no workdir key). In all
cases the defaults are applied silently: the record is still created. -/
theorem run_default_cmd_workdir (env : RunEnv) (image : String)
    (name : Option String) (volumes envs : List String)
    (rp : Option String) (labels : List (String × String)) (net : Option String)
    (svc : Bool)
    (hname : nameTakenCheck env name = false)
    (himg : env.imageTarExists = true) :
    (env.sidecar = none →
      ∃ st, LinuxEngine_run env image name [] volumes envs none rp labels net svc
          = RunOutcome.created st ∧ st.command = "/bin/sh" ∧ st.workdir = "/") ∧
    (∀ m : ImageMeta, env.sidecar = some m → pyFalsy m.cmd = true →
      ∃ st, LinuxEngine_run env image name [] volumes envs none rp labels net svc
          = RunOutcome.created st ∧ st.command = "/bin/sh" ∧
          st.workdir = m.workdir.getD "/") := by
  constructor
  · intro hside
    refine ⟨newRunRecord env image name [] volumes envs none rp labels net svc, ?_, ?_, ?_⟩
    · rw [LinuxEngine_run]
      simp [hname, firstPortFailure, himg]
    · simp [newRunRecord, resolveCmdWorkdir, hside, pyFalsy]
    · simp [newRunRecord, resolveCmdWorkdir, hside, pyFalsy]
  · intro m hside hcmd
    refine ⟨newRunRecord env image name [] volumes envs none rp labels net svc, ?_, ?_, ?_⟩
    · rw [LinuxEngine_run]
      simp [hname, firstPortFailure, himg]
    · simp [newRunRecord, resolveCmdWorkdir, hside, hcmd, pyFalsy_none]
    · simp [newRunRecord, resolveCmdWorkdir, hside, hcmd, pyFalsy_none]

/-- C10 amended, witness: missing sidecar in `busy8080Env` (no ports, so the
busy port is never consulted) yields command `/bin/sh` and workdir `/`. -/
theorem run_default_cmd_workdir_witness :
    busy8080Env.sidecar = none ∧
    (∃ st, LinuxEngine_run busy8080Env "app" none [] [] [] none none [] none false
        = RunOutcome.created st ∧ st.command = "/bin/sh" ∧ st.workdir = "/") := by
  refine ⟨rfl, ?_⟩
  exact (run_default_cmd_workdir busy8080Env "app" none [] [] none [] none false
    (by decide) (by decide)).1 rfl

/-- A parsed build instruction (`d['STEPS']` of the `build` command, lbox.py
lines 1071-1080): the step keyword and its raw argument string. -/
inductive BStep
  | copy (arg : String)
  | exec (arg : String)
  | env (arg : String)
  | dir (arg : String)
  | start (arg : String)
deriving Repr, DecidableEq

/-- What `json.loads` makes of a `START` argument: a list of strings, a JSON
string scalar, or a parse failure (`none`). Non-string scalars are out of
scope of the claims. -/
inductive StartParse
  | listOf (l : List String)
  | scalar (s : String)
deriving Repr, DecidableEq

/-- The image metadata accumulated by a build (`meta = {"cmd": None,
"workdir": "/"}`, lbox.py lines 723 and 488). -/
structure BuildMeta where
  cmd : Option String
  workdir : String
deriving Repr, DecidableEq

def initBuildMeta : BuildMeta := { cmd := none, workdir := "/" }

/-- The effectful context of a build: existence of the base image, whether a
`COPY` argument parses to two parts and its source exists (so a copy is
attempted), exit codes of the copy transfer (Windows `subprocess.run` with
`check=True`), of `EXEC` commands and of the `ENV` profile append, and the
JSON parse of `START` arguments. -/
structure BuildEnv where
  baseExists : Bool
  copyAttempted : String → Bool
  copyExit : String → Int
  execExit : String → Int
  envExit : String → Int
  startParsed : String → Option StartParse

/-- Error text of a `subprocess` `check_call`/`check=True` failure. -/
def execMsg (arg : String) : String :=
  "CalledProcessError: " ++ arg

/-- One step of `LinuxEngine.build` (lbox.py lines 730-752). `COPY` uses
`shutil`/`cp` without checking exit status, so it cannot abort; `EXEC` and
`ENV` run `subprocess.check_call` and raise on non-zero exit; `DIR` records
the stripped argument as the image workdir; `START` records the entrypoint,
joining a JSON list with spaces and keeping the raw argument when the JSON
parse fails. -/
def stepRunL (env : BuildEnv) (m : BuildMeta) : BStep → Except String BuildMeta
  | BStep.copy _ => Except.ok m
  | BStep.exec a =>
      if env.execExit a = 0 then Except.ok m else Except.error (execMsg a)
  | BStep.env a =>
      if env.envExit a = 0 then Except.ok m else Except.error (execMsg a)
  | BStep.dir a => Except.ok { m with workdir := a.trim }
  | BStep.start a =>
      Except.ok { m with cmd := some (match env.startParsed a with
        | some (StartParse.listOf l) => String.intercalate " " l
        | some (StartParse.scalar s) => s
        | none => a) }

/-- One step of `WindowsEngine.build` (lbox.py lines 498-523): as on Linux,
except that an attempted `COPY` transfers files via `subprocess.run` with
`check=True` and so raises on a non-zero exit. -/
def stepRunW (env : BuildEnv) (m : BuildMeta) : BStep → Except String BuildMeta
  | BStep.copy a =>
      if env.copyAttempted a ∧ env.copyExit a ≠ 0 then Except.error (execMsg a)
      else Except.ok m
  | BStep.exec a =>
      if env.execExit a = 0 then Except.ok m else Except.error (execMsg a)
  | BStep.env a =>
      if env.envExit a = 0 then Except.ok m else Except.error (execMsg a)
  | BStep.dir a => Except.ok { m with workdir := a.trim }
  | BStep.start a =>
      Except.ok { m with cmd := some (match env.startParsed a with
        | some (StartParse.listOf l) => String.intercalate " " l
        | some (StartParse.scalar s) => s
        | none => a) }

/-- The step loop of a build: apply steps in order, aborting at the first
raised exception. -/
def runSteps (step : BuildMeta → BStep → Except String BuildMeta) :
    BuildMeta → List BStep → Except String BuildMeta
  | m, [] => Except.ok m
  | m, s :: rest =>
    match step m s with
    | Except.error e => Except.error e
    | Except.ok m2 => runSteps step m2 rest

/-- What a build leaves behind: the failure message (if any), whether the
`<tag>.tar` archive and the `<tag>.json` sidecar were written by this build,
whether the scratch root was destroyed (the `finally` block), and the
metadata written to the sidecar on success. -/
structure BuildOutcome where
  failMsg : Option String
  tarWritten : Bool
  jsonWritten : Bool
  scratchDestroyed : Bool
  meta : Option BuildMeta
deriving Repr, DecidableEq

/-- `LinuxEngine.build` (lbox.py lines 717-758): make a scratch root, require
the base image, apply the steps; on success export `<tag>.tar` and write
`<tag>.json`; on any raised step failure skip both writes and print the
failure; in the `finally` block always destroy the scratch root. -/
def LinuxEngine_build (env : BuildEnv) (steps : List BStep) : BuildOutcome :=
  if env.baseExists then
    match runSteps (stepRunL env) initBuildMeta steps with
    | Except.error e =>
        { failMsg := some e, tarWritten := false, jsonWritten := false,
          scratchDestroyed := true, meta := none }
    | Except.ok m =>
        { failMsg := none, tarWritten := true, jsonWritten := true,
          scratchDestroyed := true, meta := some m }
  else
    { failMsg := some "Base image missing.", tarWritten := false, jsonWritten := false,
      scratchDestroyed := true, meta := none }

/-- `WindowsEngine.build` (lbox.py lines 480-536): same shape as the Linux
build; the `finally` block unregisters the scratch instance and destroys the
scratch root. -/
def WindowsEngine_build (env : BuildEnv) (steps : List BStep) : BuildOutcome :=
  if env.baseExists then
    match runSteps (stepRunW env) initBuildMeta steps with
    | Except.error e =>
        { failMsg := some e, tarWritten := false, jsonWritten := false,
          scratchDestroyed := true, meta := none }
    | Except.ok m =>
        { failMsg := none, tarWritten := true, jsonWritten := true,
          scratchDestroyed := true, meta := some m }
  else
    { failMsg := some "Base image missing.", tarWritten := false, jsonWritten := false,
      scratchDestroyed := true, meta := none }

/-- Splitting the step loop at an append. -/
theorem runSteps_append (step : BuildMeta → BStep → Except String BuildMeta)
    (m : BuildMeta) (l1 l2 : List BStep) :
    runSteps step m (l1 ++ l2) =
      match runSteps step m l1 with
      | Except.error e => Except.error e
      | Except.ok m2 => runSteps step m2 l2 := by
  induction l1 generalizing m with
  | nil => simp [runSteps]
  | cons s rest ih =>
    rw [List.cons_append, runSteps, runSteps]
    cases step m s <;> simp [ih]

/-- C3. For every build in which a step fails — in particular whenever an
`EXEC` step is reached whose command exits non-zero — the builder writes
neither the `<tag>.tar` archive nor the `<tag>.json` sidecar and destroys the
scratch root, on both engines. -/
theorem build_step_failure_no_partial_artifacts (env : BuildEnv)
    (steps pre post : List BStep) (eL eW : String) (c : String) (m' : BuildMeta)
    (hbase : env.baseExists = true)
    (hfailL : runSteps (stepRunL env) initBuildMeta steps = Except.error eL)
    (hfailW : runSteps (stepRunW env) initBuildMeta steps = Except.error eW)
    (hpreL : runSteps (stepRunL env) initBuildMeta pre = Except.ok m')
    (hexec : env.execExit c ≠ 0) :
    LinuxEngine_build env steps =
      { failMsg := some eL, tarWritten := false, jsonWritten := false,
        scratchDestroyed := true, meta := none } ∧
    WindowsEngine_build env steps =
      { failMsg := some eW, tarWritten := false, jsonWritten := false,
        scratchDestroyed := true, meta := none } ∧
    LinuxEngine_build env (pre ++ BStep.exec c :: post) =
      { failMsg := some (execMsg c), tarWritten := false, jsonWritten := false,
        scratchDestroyed := true, meta := none } := by
  refine ⟨?_, ?_, ?_⟩
  · rw [LinuxEngine_build]
    simp [hbase, hfailL]
  · rw [WindowsEngine_build]
    simp [hbase, hfailW]
  · have hstep : runSteps (stepRunL env) initBuildMeta (pre ++ BStep.exec c :: post)
        = Except.error (execMsg c) := by
      rw [runSteps_append, hpreL]
      simp [runSteps, stepRunL, hexec]
    rw [LinuxEngine_build]
    simp [hbase, hstep]

/-- A build environment whose only `EXEC` command exits 1. -/
def failingBuildEnv : BuildEnv :=
  { baseExists := true, copyAttempted := fun _ => false, copyExit := fun _ => 0,
    execExit := fun _ => 1, envExit := fun _ => 0, startParsed := fun _ => none }

/-- C3 witness at the one-step build `EXEC false` whose command exits 1. -/
theorem build_step_failure_no_partial_artifacts_witness :
    LinuxEngine_build failingBuildEnv [BStep.exec "false"] =
      { failMsg := some (execMsg "false"), tarWritten := false, jsonWritten := false,
        scratchDestroyed := true, meta := none } ∧
    WindowsEngine_build failingBuildEnv [BStep.exec "false"] =
      { failMsg := some (execMsg "false"), tarWritten := false, jsonWritten := false,
        scratchDestroyed := true, meta := none } ∧
    LinuxEngine_build failingBuildEnv ([] ++ BStep.exec "false" :: []) =
      { failMsg := some (execMsg "false"), tarWritten := false, jsonWritten := false,
        scratchDestroyed := true, meta := none } :=
  build_step_failure_no_partial_artifacts failingBuildEnv
    [BStep.exec "false"] [] [] (execMsg "false") (execMsg "false") "false" initBuildMeta
    rfl (by rfl) (by rfl) (by rfl) (by decide)

/-- Which instruction files exist in a build context directory. -/
structure BuildCtx where
  lboxExists : Bool
  appLboxExists : Bool
deriving Repr, DecidableEq

/-- Existence test for the two instruction file names in a context. -/
def lboxFileExists (c : BuildCtx) (fp : String) : Bool :=
  if fp == "lbox" then c.lboxExists
  else if fp == "app.lbox" then c.appLboxExists
  else false

/-- The instruction-file choice of the `build` command (lbox.py lines
1069-1070):

    fp = os.path.join(path, 'lbox') if os.path.exists(os.path.join(path, 'lbox')) else os.path.join(path, 'app.lbox')
    if not os.path.exists(fp): return print("No lbox file.")

`none` models the `No lbox file.` return. -/
def buildFileToRead (c : BuildCtx) : Option String :=
  let fp := if c.lboxExists then "lbox" else "app.lbox"
  if lboxFileExists c fp then some fp else none

/-- The instruction-file choice of `monitor_daemon`'s local hash check
(lbox.py lines 1007-1010):

    lbox_file = os.path.join(build_path, 'app.lbox')
    if not os.path.exists(lbox_file): lbox_file = os.path.join(build_path, 'lbox')
    if os.path.exists(lbox_file): ...
-/
def monitorFileToHash (c : BuildCtx) : Option String :=
  let fp := if c.appLboxExists then "app.lbox" else "lbox"
  if lboxFileExists c fp then some fp else none

/-- The choice exactly as claim C7 (spec section 6) states it for `build`:
`app.lbox` when it exists, else `lbox`. -/
def claimedBuildFileToRead (c : BuildCtx) : Option String :=
  if c.appLboxExists then some "app.lbox"
  else if c.lboxExists then some "lbox"
  else none

/-- C7 counterexample. When both `app.lbox` and `lbox` exist in the context
directory, the `build` command reads `lbox`, not `app.lbox` as the claim
states. -/
theorem build_file_order_counterexample :
    buildFileToRead { lboxExists := true, appLboxExists := true } = some "lbox" ∧
    claimedBuildFileToRead { lboxExists := true, appLboxExists := true }
      = some "app.lbox" ∧
    buildFileToRead { lboxExists := true, appLboxExists := true }
      ≠ claimedBuildFileToRead { lboxExists := true, appLboxExists := true } := by
  refine ⟨rfl, rfl, ?_⟩
  decide

/-- C7 amended. The `build` command reads `lbox` from the context directory
when it exists and falls back to `app.lbox` otherwise — when both exist,
`lbox` is the one used. (The monitor's local hash check uses the opposite
order, preferring `app.lbox`, which matches the claim's wording.) -/
theorem build_file_order_amended (c : BuildCtx) :
    buildFileToRead c =
      (if c.lboxExists then some "lbox"
       else if c.appLboxExists then some "app.lbox" else none) ∧
    monitorFileToHash c =
      (if c.appLboxExists then some "app.lbox"
       else if c.lboxExists then some "lbox" else none) := by
  rcases c with ⟨lb, ap⟩
  cases lb <;> cases ap <;> exact ⟨rfl, rfl⟩

/-- A value of the monitor's `last_state` dict: either a recorded header
string (stored under the service name) or Python `True` (stored under
`<name>_init`). -/
inductive MVal
  | header (h : String)
  | flag
deriving Repr, DecidableEq

/-- The monitor's `last_state` dict, as a map from key to stored value. -/
def MonDict : Type := String → Option MVal

/-- `last_state[k] = v`. -/
def dictSet (d : MonDict) (k : String) (v : MVal) : MonDict :=
  fun x => if x = k then some v else d x

/-- Python truthiness of `last_state.get(key)`: an absent key is falsy, the
stored `True` is truthy, a stored header string is truthy iff non-empty. -/
def mvTruthy : Option MVal → Bool
  | none => false
  | some MVal.flag => true
  | some (MVal.header s) => !(s == "")

/-- The URL branch of the per-service check of `monitor_daemon` (lbox.py
lines 996-1003):

    current_header = get_remote_header(url)
    if current_header and last_state.get(name) != current_header:
        last_state[name] = current_header
        if last_state.get(f"{name}_init"): should_update = True
        last_state[f"{name}_init"] = True

`currentHeader = none` (or the empty string) models a failed or empty HEAD
fetch. The boolean of the result is `should_update`: whether the monitor goes
on to re-fetch the image and stop, remove and re-run the container (lines
1018-1051). -/
def monitorUrlStep (last : MonDict) (name : String) (currentHeader : Option String) :
    MonDict × Bool :=
  match currentHeader with
  | none => (last, false)
  | some h =>
    if h = "" then (last, false)
    else if last name ≠ some (MVal.header h) then
      let last1 := dictSet last name (MVal.header h)
      let should := mvTruthy (last1 (name ++ "_init"))
      let last2 := dictSet last1 (name ++ "_init") MVal.flag
      (last2, should)
    else (last, false)

/-- Appending `_init` changes any string (the two `last_state` keys of one
service are distinct). -/
theorem append_init_ne (s : String) : s ++ "_init" ≠ s := by
  intro h
  have hlen := congrArg String.length h
  have h5 : ("_init" : String).length = 5 := rfl
  rw [String.length_append, h5] at hlen
  omega

/-- C6. For a service with a configured url: the monitor's first observation
of a (non-empty) header primes the per-service state — it records the value
and sets the init flag without triggering an update; any later poll that
observes a different header value triggers an update; an unchanged header
triggers nothing and leaves the state untouched, as does a failed fetch. -/
theorem monitor_primes_then_triggers (last : MonDict) (name h h0 : String) :
    ((last name = none ∧ last (name ++ "_init") = none ∧ h ≠ "") →
      (monitorUrlStep last name (some h)).2 = false ∧
      (monitorUrlStep last name (some h)).1 name = some (MVal.header h) ∧
      (monitorUrlStep last name (some h)).1 (name ++ "_init") = some MVal.flag) ∧
    ((last name = some (MVal.header h0) ∧ last (name ++ "_init") = some MVal.flag ∧
        h ≠ "" ∧ h ≠ h0) →
      (monitorUrlStep last name (some h)).2 = true ∧
      (monitorUrlStep last name (some h)).1 name = some (MVal.header h)) ∧
    ((last name = some (MVal.header h0) ∧ h0 ≠ "") →
      monitorUrlStep last name (some h0) = (last, false)) ∧
    (monitorUrlStep last name none = (last, false)) := by
  have hne := append_init_ne name
  have hne2 : name ≠ name ++ "_init" := fun hcontra => hne hcontra.symm
  refine ⟨?_, ?_, ?_, rfl⟩
  · rintro ⟨hn, hi, hh⟩
    have hcond : last name ≠ some (MVal.header h) := by rw [hn]; exact fun hc => by cases hc
    have hstep : monitorUrlStep last name (some h)
        = (dictSet (dictSet last name (MVal.header h)) (name ++ "_init") MVal.flag,
           mvTruthy (dictSet last name (MVal.header h) (name ++ "_init"))) := by
      rw [monitorUrlStep]
      rw [if_neg hh, if_pos hcond]
    rw [hstep]
    refine ⟨?_, ?_, ?_⟩
    · simp [dictSet, hne, hi, mvTruthy]
    · simp [dictSet, hne2]
    · simp [dictSet]
  · rintro ⟨hn, hi, hh, hne0⟩
    have hcond : last name ≠ some (MVal.header h) := by
      rw [hn]
      intro hc
      injection hc with hc1
      injection hc1 with hc2
      exact hne0 hc2.symm
    have hstep : monitorUrlStep last name (some h)
        = (dictSet (dictSet last name (MVal.header h)) (name ++ "_init") MVal.flag,
           mvTruthy (dictSet last name (MVal.header h) (name ++ "_init"))) := by
      rw [monitorUrlStep]
      rw [if_neg hh, if_pos hcond]
    rw [hstep]
    constructor
    · simp [dictSet, hne, hi, mvTruthy]
    · simp [dictSet, hne2]
  · rintro ⟨hn, hh⟩
    rw [monitorUrlStep]
    simp [hn, hh]

/-- C6 witness: from an empty state, observing header `W1` primes without
triggering. -/
theorem monitor_primes_then_triggers_witness :
    (monitorUrlStep (fun _ => none) "svc" (some "W1")).2 = false ∧
    (monitorUrlStep (fun _ => none) "svc" (some "W1")).1 "svc"
      = some (MVal.header "W1") ∧
    (monitorUrlStep (fun _ => none) "svc" (some "W1")).1 ("svc" ++ "_init")
      = some MVal.flag :=
  (monitor_primes_then_triggers (fun _ => none) "svc" "W1" "").1
    ⟨rfl, rfl, by decide⟩

/-- A compose manifest's `services` mapping, in manifest (insertion) order:
each service name with its `depends_on` list. The source additionally
normalizes a mapping-form `depends_on` to its key list and raises on other
types (lbox_create.py lines 28-34); the embedding takes the already-normalized
list. -/
abbrev SvcList := List (String × List String)

/-- The service names (dict keys), in manifest order. -/
def svcNames (services : SvcList) : List String :=
  services.map Prod.fst

/-- Lexicographic comparison of character lists by code point, structurally
recursive so that it reduces in the kernel. -/
def charListLe : List Char → List Char → Bool
  | [], _ => true
  | _ :: _, [] => false
  | c :: cs, d :: ds =>
    if c.val < d.val then true
    else if d.val < c.val then false
    else charListLe cs ds

/-- Python's `<=` on strings (lexicographic by code point). -/
def strLe (a b : String) : Bool :=
  charListLe a.data b.data

/-- Insertion of a string into a sorted list: one step of Python's `sorted`
over strings (lexicographic). -/
def insertSorted (x : String) : List String → List String
  | [] => [x]
  | y :: ys => if strLe x y then x :: y :: ys else y :: insertSorted x ys

/-- Python's `sorted` on a list of strings, as insertion sort. -/
def sortStrings : List String → List String
  | [] => []
  | x :: xs => insertSorted x (sortStrings xs)

/-- The `UsageError` message for an undefined dependency (lbox_create.py
lines 36-40). -/
def unknownDepsMsg (name : String) (unknown : List String) : String :=
  "Service '" ++ name ++ "' depends on undefined service(s): "
    ++ String.intercalate ", " unknown

/-- The `UsageError` message for a detected cycle (lbox_create.py lines
47-49): the sorted names still pending, comma-joined. -/
def cycleMsg (pending : SvcList) : String :=
  "Cyclic depends_on detected among: "
    ++ String.intercalate ", " (sortStrings (svcNames pending))

/-- `unknown = [dep for dep in deps if dep not in services]` (lbox_create.py
line 36). -/
def unknownOf (services : SvcList) (deps : List String) : List String :=
  deps.filter (fun d => !((svcNames services).contains d))

/-- One pass of the `while pending` loop of `_service_start_order`
(lbox_create.py lines 24-46): walk the still-pending services in order; raise
on an undefined dependency; move a service whose dependencies are all
resolved to the end of `resolved` (later services of the same pass see it);
keep the rest pending. Returns the grown `resolved`, the remaining pending
list, and the `progressed` flag. -/
def onePass (services : SvcList) : List String → SvcList →
    Except String (List String × SvcList × Bool)
  | resolved, [] => Except.ok (resolved, [], false)
  | resolved, (name, deps) :: rest =>
    if unknownOf services deps ≠ [] then
      Except.error (unknownDepsMsg name (unknownOf services deps))
    else if deps.all (fun d => resolved.contains d) then
      match onePass services (resolved ++ [name]) rest with
      | Except.ok (r, p, _) => Except.ok (r, p, true)
      | Except.error e => Except.error e
    else
      match onePass services resolved rest with
      | Except.ok (r, p, prog) => Except.ok (r, (name, deps) :: p, prog)
      | Except.error e => Except.error e

/-- The `while pending` loop of `_service_start_order`: repeat passes until
pending is empty; raise the cycle error when a pass makes no progress. The
fuel argument bounds the number of passes; since every progressing pass
strictly shrinks `pending`, fuel `services.length` is never exhausted (the
exhaustion arm repeats the cycle error, and is reached only on a cycle). -/
def orderLoop (services : SvcList) : Nat → List String → SvcList →
    Except String (List String)
  | _, resolved, [] => Except.ok resolved
  | 0, _, q :: rest => Except.error (cycleMsg (q :: rest))
  | Nat.succ f, resolved, q :: rest =>
    match onePass services resolved (q :: rest) with
    | Except.error e => Except.error e
    | Except.ok (r, p, prog) =>
      if prog then orderLoop services f r p
      else Except.error (cycleMsg p)

/-- `_service_start_order` (lbox_create.py lines 19-51): the dependency-order
computation of `create up`. `Except.error` models a raised
`click.UsageError` (a usage-error exit). -/
def _service_start_order (services : SvcList) : Except String (List String) :=
  orderLoop services services.length [] services

/-- Outcome of `create up` as far as the claims reach: the usage error (if
the order computation raised) and the services started, in order. -/
structure UpOutcome where
  errMsg : Option String
  started : List String
deriving Repr, DecidableEq

/-- The `up` command of lbox_create.py (lines 77-146), reduced to the order
computation and the start loop: `_service_start_order` runs before any
service is started, so a raised usage error starts nothing; on success the
services are started in the computed order, `canStart` abstracting the
per-service build/image/already-exists skips of the loop body. -/
def upModel (canStart : String → Bool) (services : SvcList) : UpOutcome :=
  match _service_start_order services with
  | Except.error e => { errMsg := some e, started := [] }
  | Except.ok order => { errMsg := none, started := order.filter canStart }

/-- Orderings in which every resolved service was appended only after all of
its `F`-dependencies: the shape in which `_service_start_order` grows
`resolved`. -/
inductive Good (F : String → List String) : List String → Prop
  | nil : Good F []
  | snoc (l : List String) (x : String) : Good F l → (∀ d ∈ F x, d ∈ l) →
      Good F (l ++ [x])

/-- Any list is empty or ends in an element. -/
theorem eq_nil_or_snoc {α : Type} (l : List α) :
    l = [] ∨ ∃ l2 a, l = l2 ++ [a] := by
  induction l with
  | nil => exact Or.inl rfl
  | cons x xs ih =>
    right
    rcases ih with h | ⟨l2, a, h⟩
    · exact ⟨[], x, by simp [h]⟩
    · exact ⟨x :: l2, a, by simp [h]⟩

/-- Splitting `l ++ [x]` at an occurrence of `n`: either `n` is the final
`x`, or the occurrence lies inside `l`. -/
theorem append_singleton_split {α : Type} (l l1 : List α) (x n : α) (l2 : List α)
    (h : l ++ [x] = l1 ++ n :: l2) :
    (l2 = [] ∧ l = l1 ∧ x = n) ∨ ∃ l3, l2 = l3 ++ [x] ∧ l = l1 ++ n :: l3 := by
  rcases eq_nil_or_snoc l2 with h2 | ⟨l3, y, h2⟩
  · subst h2
    have := List.append_inj' h (by simp)
    exact Or.inl ⟨rfl, this.1, by simpa using this.2⟩
  · subst h2
    rw [show l1 ++ n :: (l3 ++ [y]) = (l1 ++ n :: l3) ++ [y] by simp] at h
    have := List.append_inj' h (by simp)
    rcases this with ⟨hl, hxy⟩
    have hxy2 : x = y := by simpa using hxy
    exact Or.inr ⟨l3, by rw [hxy2], hl⟩

/-- In a `Good` ordering, every dependency of an element occurs before it. -/
theorem Good.before {F : String → List String} {l : List String} (hg : Good F l) :
    ∀ l1 n l2, l = l1 ++ n :: l2 → ∀ d ∈ F n, d ∈ l1 := by
  induction hg with
  | nil =>
    intro l1 n l2 h
    exact absurd h (by simp)
  | snoc l x hgood hdeps ih =>
    intro l1 n l2 h d hd
    rcases append_singleton_split l l1 x n l2 h with ⟨_, hl, hx⟩ | ⟨l3, _, hl⟩
    · subst hl
      subst hx
      exact hdeps d hd
    · exact ih l1 n l3 hl d hd

/-- The main invariants of one pass, under the assumption that every pending
dependency names a defined service (so the pass cannot raise): the pass
returns `resolved ++ new` for some `new`; it progressed iff `new` is
non-empty; the remaining pending list is a sublist of the old one; `new` is a
subsequence of the pending names (pending order, hence manifest order, is
preserved within a pass); `new` and the remaining names partition the pending
names; and the pass preserves `Good` orderings (a service is only resolved
after all its dependencies). -/
theorem onePass_ok (services : SvcList) (F : String → List String) :
    ∀ (pending : SvcList) (resolved : List String),
    (∀ q ∈ pending, ∀ d ∈ q.2, d ∈ svcNames services) →
    ∃ new p2 prog,
      onePass services resolved pending = Except.ok (resolved ++ new, p2, prog) ∧
      (prog = true ↔ new ≠ []) ∧
      List.Sublist p2 pending ∧
      List.Sublist new (svcNames pending) ∧
      List.Perm (new ++ svcNames p2) (svcNames pending) ∧
      ((∀ q ∈ pending, q.2 = F q.1) → Good F resolved → Good F (resolved ++ new)) := by
  intro pending
  induction pending with
  | nil =>
    intro resolved _
    refine ⟨[], [], false, by simp [onePass], by simp, List.Sublist.refl _, ?_, ?_, ?_⟩
    · simp [svcNames]
    · simp [svcNames]
    · intro _ h
      simpa using h
  | cons q rest ih =>
    rcases q with ⟨name, deps⟩
    intro resolved hdef
    have hdefrest : ∀ q ∈ rest, ∀ d ∈ q.2, d ∈ svcNames services :=
      fun q hq => hdef q (List.mem_cons_of_mem _ hq)
    have hunk : unknownOf services deps = [] := by
      rw [unknownOf, List.filter_eq_nil_iff]
      intro d hd
      have hmem : d ∈ svcNames services := hdef (name, deps) (List.mem_cons_self _ _) d hd
      simp [hmem]
    by_cases hall : deps.all (fun d => resolved.contains d) = true
    · rcases ih (resolved ++ [name]) hdefrest with
        ⟨new2, p2, prog2, heq, _, hsubp, hsubn, hperm, hgood⟩

      refine ⟨name :: new2, p2, true, ?_, by simp, hsubp.cons _, ?_, ?_, ?_⟩
      · rw [onePass, if_neg (by simp [hunk]), if_pos hall, heq]
        simp
      · simpa [svcNames] using hsubn.cons₂ name
      · simpa [svcNames] using hperm.cons name
      · intro hq hgoodr
        have hdeq : deps = F name := hq (name, deps) (List.mem_cons_self _ _)
        have hdsub : ∀ d ∈ F name, d ∈ resolved := by
          intro d hd
          have := (List.all_eq_true.mp hall) d (hdeq ▸ hd)
          simpa using this
        have hg1 : Good F (resolved ++ [name]) := Good.snoc _ _ hgoodr hdsub
        have := hgood (fun q hq2 => hq q (List.mem_cons_of_mem _ hq2)) hg1
        simpa [List.append_assoc] using this
    · rcases ih resolved hdefrest with
        ⟨new2, p2, prog2, heq, hiff, hsubp, hsubn, hperm, hgood⟩
      refine ⟨new2, (name, deps) :: p2, prog2, ?_, hiff, hsubp.cons₂ _, ?_, ?_, ?_⟩
      · rw [onePass, if_neg (by simp [hunk]), if_neg hall, heq]
      · simpa [svcNames] using (hsubn.cons name)
      · have h1 : List.Perm (new2 ++ name :: svcNames p2) (name :: (new2 ++ svcNames p2)) :=
          List.perm_middle
        simpa [svcNames] using h1.trans (hperm.cons name)
      · intro hq hgoodr
        exact hgood (fun q hq2 => hq q (List.mem_cons_of_mem _ hq2)) hgoodr

/-- If some pending service already has all its dependencies resolved, the
pass progresses. -/
theorem onePass_progress (services : SvcList) :
    ∀ (pending : SvcList) (resolved : List String) (n : String) (ds : List String),
    (n, ds) ∈ pending → (∀ d ∈ ds, d ∈ resolved) →
    ∀ r p2 prog, onePass services resolved pending = Except.ok (r, p2, prog) →
    prog = true := by
  intro pending
  induction pending with
  | nil =>
    intro resolved n ds hmem
    exact absurd hmem (by simp)
  | cons q rest ih =>
    rcases q with ⟨name, deps⟩
    intro resolved n ds hmem hres r p2 prog heq
    rw [onePass] at heq
    by_cases hunk : unknownOf services deps ≠ []
    · rw [if_pos hunk] at heq
      cases heq
    · rw [if_neg hunk] at heq
      by_cases hall : deps.all (fun d => resolved.contains d) = true
      · rw [if_pos hall] at heq
        rcases h2 : onePass services (resolved ++ [name]) rest with e | ⟨r2, p3, prog2⟩ <;>
          rw [h2] at heq
        · cases heq
        · cases heq
          rfl
      · rw [if_neg hall] at heq
        rcases List.mem_cons.mp hmem with hhd | htl
        · exfalso
          apply hall
          rw [List.all_eq_true]
          intro d hd
          have hd2 : d ∈ ds := by
            have : deps = ds := (Prod.mk.injEq _ _ _ _ ▸ hhd.symm).2
            rw [this] at hd
            exact hd
          simpa using hres d hd2
        · rcases h2 : onePass services resolved rest with e | ⟨r2, p3, prog2⟩ <;>
            rw [h2] at heq
          · cases heq
          · cases heq
            exact ih resolved n ds htl hres _ _ _ h2

/-- A non-empty list of strings has an element of minimal rank. -/
theorem exists_rank_min (rank : String → Nat) (l : List String) (hne : l ≠ []) :
    ∃ m ∈ l, ∀ x ∈ l, rank m ≤ rank x := by
  induction l with
  | nil => exact absurd rfl hne
  | cons x xs ih =>
    rcases eq_or_ne xs [] with hxs | hxs
    · subst hxs
      exact ⟨x, by simp⟩
    · rcases ih hxs with ⟨m, hm, hmin⟩
      by_cases hle : rank x ≤ rank m
      · refine ⟨x, by simp, ?_⟩
        intro y hy
        rcases List.mem_cons.mp hy with h | h
        · subst h; exact le_refl _
        · exact le_trans hle (hmin y h)
      · refine ⟨m, List.mem_cons_of_mem _ hm, ?_⟩
        intro y hy
        rcases List.mem_cons.mp hy with h | h
        · subst h; exact le_of_lt (lt_of_not_le hle)
        · exact hmin y h

/-- The resolution passes of the `while pending` loop, as the loop itself
produces them: the `k`-th entry lists the services resolved in pass `k`, in
the order the pass appended them to `resolved` (which is pending order, hence
manifest order). These are the loop's ranks: pass `k` starts strictly before
pass `k+1`. The arms mirror `orderLoop` exactly; on an error or a
no-progress pass nothing further is resolved. -/
def orderPasses (services : SvcList) : Nat → List String → SvcList →
    List (List String)
  | _, _, [] => []
  | 0, _, _ :: _ => []
  | Nat.succ f, resolved, q :: rest =>
    match onePass services resolved (q :: rest) with
    | Except.error _ => []
    | Except.ok (r, p, prog) =>
      if prog then r.drop resolved.length :: orderPasses services f r p
      else []

/-- The rank decomposition of `_service_start_order`: `serviceRanks` lists,
pass by pass, which services each pass of the loop resolved and in which
order. -/
def serviceRanks (services : SvcList) : List (List String) :=
  orderPasses services services.length [] services

/-- A cons sublist splits its superlist at the head element. -/
theorem cons_sublist_split {α : Type} {x : α} {t r : List α}
    (h : List.Sublist (x :: t) r) :
    ∃ r1 r2, r = r1 ++ x :: r2 ∧ List.Sublist t r2 := by
  induction r with
  | nil => cases h
  | cons a as ih =>
    cases h
    · rename_i h2
      rcases ih h2 with ⟨r1, r2, hr, hsub⟩
      exact ⟨a :: r1, r2, by rw [hr]; rfl, hsub⟩
    · rename_i h2
      exact ⟨[], as, rfl, h2⟩

/-- A sublist preserves the relative order of any two of its elements: an
`x` before `y` in the sublist is an `x` before `y` in the superlist. -/
theorem sublist_pair_order {c names : List String} (h : List.Sublist c names) :
    ∀ l1 x l2 y l3, c = l1 ++ x :: l2 ++ y :: l3 →
    ∃ m1 m2 m3, names = m1 ++ x :: m2 ++ y :: m3 := by
  intro l1 x l2 y l3 hc
  subst hc
  have h' : List.Sublist (l1 ++ (x :: (l2 ++ y :: l3))) names := by
    simpa [List.append_assoc] using h
  have h1 : List.Sublist (x :: (l2 ++ y :: l3)) names :=
    (List.sublist_append_right l1 _).trans h'
  rcases cons_sublist_split h1 with ⟨m1, r2, hr, hsub2⟩
  have h2 : List.Sublist (y :: l3) r2 :=
    (List.sublist_append_right l2 _).trans hsub2
  rcases cons_sublist_split h2 with ⟨m2, m3, hr2, _⟩
  refine ⟨m1, m2, m3, ?_⟩
  rw [hr, hr2]
  simp

/-- The loop of `_service_start_order` succeeds on an acyclic manifest
(witnessed by a rank function that strictly drops along every `depends_on`
edge, so the minimal-rank pending service is always resolvable), and its
result is exactly the concatenation of the passes computed by `orderPasses`:
each pass is non-empty and a subsequence of the manifest name order, and the
partition and `Good` invariants are preserved. -/
theorem orderLoop_ok (services : SvcList) (F : String → List String)
    (rank : String → Nat)
    (hdefAll : ∀ q ∈ services, ∀ d ∈ q.2, d ∈ svcNames services)
    (hFAll : ∀ q ∈ services, q.2 = F q.1)
    (hrank : ∀ q ∈ services, ∀ d ∈ q.2, rank d < rank q.1) :
    ∀ (fuel : Nat) (pending : SvcList) (resolved : List String),
    List.Sublist pending services →
    pending.length ≤ fuel →
    List.Perm (svcNames services) (resolved ++ svcNames pending) →
    Good F resolved →
    orderLoop services fuel resolved pending
      = Except.ok (resolved ++ (orderPasses services fuel resolved pending).flatten) ∧
    (∀ c ∈ orderPasses services fuel resolved pending,
      c ≠ [] ∧ List.Sublist c (svcNames services)) ∧
    List.Perm (svcNames services)
      (resolved ++ (orderPasses services fuel resolved pending).flatten) ∧
    Good F (resolved ++ (orderPasses services fuel resolved pending).flatten) := by
  intro fuel
  induction fuel with
  | zero =>
    intro pending resolved hsub hlen hperm hgood
    have hpe : pending = [] := List.length_eq_zero.mp (Nat.le_zero.mp hlen)
    subst hpe
    refine ⟨by simp [orderLoop, orderPasses], by simp [orderPasses], ?_, ?_⟩
    · simpa [orderPasses, svcNames] using hperm
    · simpa [orderPasses] using hgood
  | succ f ihf =>
    intro pending resolved hsub hlen hperm hgood
    rcases hpe : pending with _ | ⟨q, rest⟩
    · subst hpe
      refine ⟨by simp [orderLoop, orderPasses], by simp [orderPasses], ?_, ?_⟩
      · simpa [orderPasses, svcNames] using hperm
      · simpa [orderPasses] using hgood
    subst hpe
    have hdefPending : ∀ p ∈ q :: rest, ∀ d ∈ p.2, d ∈ svcNames services :=
      fun p hp => hdefAll p (hsub.subset hp)
    rcases onePass_ok services F (q :: rest) resolved hdefPending with
      ⟨new, p2, prog, heq, hiff, hsubp, hsubn, hpermp, hgoodp⟩
    -- the minimal-rank pending service is resolvable, so the pass progresses
    have hnames_ne : svcNames (q :: rest) ≠ [] := by simp [svcNames]
    rcases exists_rank_min rank (svcNames (q :: rest)) hnames_ne with ⟨m, hm, hmin⟩
    rcases List.mem_map.mp hm with ⟨pr, hpr, hprm⟩
    have hready : ∀ d ∈ pr.2, d ∈ resolved := by
      intro d hd
      have hdn : d ∈ svcNames services := hdefPending pr hpr d hd
      have hdr : rank d < rank m := by
        rw [← hprm]
        exact hrank pr (hsub.subset hpr) d hd
      have : d ∈ resolved ++ svcNames (q :: rest) := hperm.mem_iff.mp hdn
      rcases List.mem_append.mp this with h | h
      · exact h
      · exact absurd (hmin d h) (by omega)
    have hprog : prog = true := by
      refine onePass_progress services (q :: rest) resolved pr.1 pr.2 ?_ hready _ _ _ heq
      simpa using hpr
    have hnewne : new ≠ [] := hiff.mp hprog
    -- lengths: the remaining pending list is strictly shorter
    have hlen2 : p2.length ≤ f := by
      have h1 := hpermp.length_eq
      have h2 : (svcNames p2).length = p2.length := List.length_map _ _
      have h3 : (svcNames (q :: rest)).length = (q :: rest).length := List.length_map _ _
      have h4 : 1 ≤ new.length := by
        rcases new with _ | ⟨a, as⟩
        · exact absurd rfl hnewne
        · simp
      rw [List.length_append] at h1
      have h5 : (q :: rest).length = rest.length + 1 := by simp
      omega
    have hgood2 : Good F (resolved ++ new) :=
      hgoodp (fun p hp => hFAll p (hsub.subset hp)) hgood
    have hperm2 : List.Perm (svcNames services) ((resolved ++ new) ++ svcNames p2) := by
      have := hperm.trans ((hpermp.symm).append_left resolved)
      simpa [List.append_assoc] using this
    rcases ihf p2 (resolved ++ new) (hsubp.trans hsub) hlen2 hperm2 hgood2 with
      ⟨hloop, hchunks, hpermf, hgoodf⟩
    have hpass : orderPasses services (Nat.succ f) resolved (q :: rest)
        = new :: orderPasses services f (resolved ++ new) p2 := by
      rw [orderPasses, heq]
      simp [hprog, List.drop_left]
    refine ⟨?_, ?_, ?_, ?_⟩
    · rw [orderLoop, heq]
      simp only [hprog, if_pos]
      rw [hloop, hpass]
      simp [List.append_assoc]
    · rw [hpass]
      intro c hc
      rcases List.mem_cons.mp hc with h | h
      · subst h
        exact ⟨hnewne, hsubn.trans (hsub.map Prod.fst)⟩
      · exact hchunks c h
    · rw [hpass]
      simpa [List.append_assoc] using hpermf
    · rw [hpass]
      simpa [List.append_assoc] using hgoodf

/-- The `depends_on` list of a named service: the unique pair of the manifest
with that name (service names are dict keys, hence unique). -/
def depsOf (services : SvcList) (n : String) : List String :=
  ((services.find? (fun q => q.1 == n)).map Prod.snd).getD []

/-- With unique service names, `depsOf` recovers each pair's list. -/
theorem depsOf_eq (services : SvcList) :
    (svcNames services).Nodup → ∀ q ∈ services, depsOf services q.1 = q.2 := by
  induction services with
  | nil =>
    intro _ q hq
    exact absurd hq (by simp)
  | cons p rest ih =>
    intro hnodup q hq
    have hn2 : p.1 ∉ svcNames rest ∧ (svcNames rest).Nodup := by
      rw [svcNames, List.map_cons, List.nodup_cons] at hnodup
      exact hnodup
    rcases List.mem_cons.mp hq with h | h
    · subst h
      rw [depsOf, List.find?_cons_of_pos _ (by simp)]
      simp
    · have hq1 : q.1 ∈ svcNames rest := List.mem_map_of_mem Prod.fst h
      have hne : (p.1 == q.1) = false := by
        rw [beq_eq_false_iff_ne]
        intro hcontra
        exact hn2.1 (hcontra ▸ hq1)
      have hrec := ih hn2.2 q h
      rw [depsOf] at hrec ⊢
      rw [List.find?_cons_of_neg _ (by simp [hne])]
      exact hrec

/-- C5. For a manifest whose service names are unique, whose `depends_on`
entries name only defined services, and whose dependency graph is acyclic
(witnessed by a rank function strictly decreasing along every edge), the
start order computed by `create up` is defined (no usage error), contains
each service exactly once, and places every service after all services it
depends on; moreover the order is exactly the concatenation of the loop's
resolution passes `serviceRanks` (the algorithm's ranks), each pass is a
non-empty subsequence of the manifest name order, and any two services of
the same rank occur in manifest order — in particular services not
constrained by dependencies keep their manifest order within a rank. -/
theorem service_start_order_topological (services : SvcList) (rank : String → Nat)
    (hnodup : (svcNames services).Nodup)
    (hdefAll : ∀ q ∈ services, ∀ d ∈ q.2, d ∈ svcNames services)
    (hrank : ∀ q ∈ services, ∀ d ∈ q.2, rank d < rank q.1) :
    ∃ order, _service_start_order services = Except.ok order ∧
      List.Perm order (svcNames services) ∧
      (∀ n ∈ svcNames services, order.count n = 1) ∧
      (∀ q ∈ services, ∀ d ∈ q.2, ∃ l1 l2 l3, order = l1 ++ d :: l2 ++ q.1 :: l3) ∧
      order = (serviceRanks services).flatten ∧
      (∀ c ∈ serviceRanks services, c ≠ [] ∧ List.Sublist c (svcNames services)) ∧
      (∀ c ∈ serviceRanks services, ∀ l1 x l2 y l3, c = l1 ++ x :: l2 ++ y :: l3 →
        ∃ m1 m2 m3, svcNames services = m1 ++ x :: m2 ++ y :: m3) := by
  have hFAll0 := depsOf_eq services hnodup
  have hFAll : ∀ q ∈ services, q.2 = depsOf services q.1 :=
    fun q hq => (hFAll0 q hq).symm
  rcases orderLoop_ok services (depsOf services) rank hdefAll hFAll hrank
      services.length services [] (List.Sublist.refl _) (le_refl _)
      (by simp) Good.nil with ⟨hloop, hchunks, hperm, hgood⟩
  have hperm2 : List.Perm (svcNames services) (serviceRanks services).flatten := by
    simpa [serviceRanks] using hperm
  have hgood2 : Good (depsOf services) (serviceRanks services).flatten := by
    simpa [serviceRanks] using hgood
  have hchunks2 : ∀ c ∈ serviceRanks services,
      c ≠ [] ∧ List.Sublist c (svcNames services) := by
    simpa [serviceRanks] using hchunks
  refine ⟨(serviceRanks services).flatten, ?_, hperm2.symm, ?_, ?_, rfl, hchunks2, ?_⟩
  · rw [_service_start_order]
    simpa [serviceRanks] using hloop
  · intro n hn
    rw [hperm2.symm.count_eq n]
    exact List.count_eq_one_of_mem hnodup hn
  · intro q hq d hd
    have hq1 : q.1 ∈ svcNames services := List.mem_map_of_mem Prod.fst hq
    have hq1o : q.1 ∈ (serviceRanks services).flatten := hperm2.mem_iff.mp hq1
    rcases List.append_of_mem hq1o with ⟨l1, l2, hsplit⟩
    have hdF : d ∈ depsOf services q.1 := by
      rw [← hFAll q hq]
      exact hd
    have hdl1 : d ∈ l1 := hgood2.before l1 q.1 l2 hsplit d hdF
    rcases List.append_of_mem hdl1 with ⟨l3, l4, hsplit2⟩
    refine ⟨l3, l4, l2, ?_⟩
    simp [hsplit, hsplit2]
  · intro c hc l1 x l2 y l3 hcsplit
    exact sublist_pair_order (hchunks2 c hc).2 l1 x l2 y l3 hcsplit

/-- The two-service manifest of the spec's dependency-order scenario. -/
def demoServices : SvcList := [("db", []), ("web", ["db"])]

/-- A rank function witnessing that `demoServices` is acyclic. -/
def demoRank : String → Nat := fun n => if n = "web" then 1 else 0

/-- C5 witness at the concrete manifest `db`, `web depends_on db`. -/
theorem service_start_order_topological_witness :
    ∃ order, _service_start_order demoServices = Except.ok order ∧
      List.Perm order (svcNames demoServices) ∧
      (∀ n ∈ svcNames demoServices, order.count n = 1) ∧
      (∀ q ∈ demoServices, ∀ d ∈ q.2, ∃ l1 l2 l3, order = l1 ++ d :: l2 ++ q.1 :: l3) ∧
      order = (serviceRanks demoServices).flatten ∧
      (∀ c ∈ serviceRanks demoServices, c ≠ [] ∧ List.Sublist c (svcNames demoServices)) ∧
      (∀ c ∈ serviceRanks demoServices, ∀ l1 x l2 y l3, c = l1 ++ x :: l2 ++ y :: l3 →
        ∃ m1 m2 m3, svcNames demoServices = m1 ++ x :: m2 ++ y :: m3) :=
  service_start_order_topological demoServices demoRank (by decide) (by decide) (by decide)

/-- The resolved list only grows along a pass. -/
theorem onePass_mono (services : SvcList) :
    ∀ (pending : SvcList) (resolved : List String) r p2 prog,
    onePass services resolved pending = Except.ok (r, p2, prog) →
    ∀ x ∈ resolved, x ∈ r := by
  intro pending
  induction pending with
  | nil =>
    intro resolved r p2 prog heq x hx
    rw [onePass] at heq
    cases heq
    exact hx
  | cons q rest ih =>
    rcases q with ⟨name, deps⟩
    intro resolved r p2 prog heq x hx
    rw [onePass] at heq
    by_cases hunk : unknownOf services deps ≠ []
    · rw [if_pos hunk] at heq
      cases heq
    · rw [if_neg hunk] at heq
      by_cases hall : deps.all (fun d => resolved.contains d) = true
      · rw [if_pos hall] at heq
        rcases h2 : onePass services (resolved ++ [name]) rest with e | ⟨r2, p3, prog2⟩ <;>
          rw [h2] at heq
        · cases heq
        · cases heq
          exact ih (resolved ++ [name]) _ _ _ h2 x (List.mem_append_left _ hx)
      · rw [if_neg hall] at heq
        rcases h2 : onePass services resolved rest with e | ⟨r2, p3, prog2⟩ <;>
          rw [h2] at heq
        · cases heq
        · cases heq
          exact ih resolved _ _ _ h2 x hx

/-- A pending pair one of whose dependencies is unresolved even at the end of
the pass stays pending, with its dependency list intact. -/
theorem onePass_keep_pair (services : SvcList) :
    ∀ (pending : SvcList) (resolved : List String) r p2 prog,
    onePass services resolved pending = Except.ok (r, p2, prog) →
    ∀ n ds, (n, ds) ∈ pending → (∃ d ∈ ds, d ∉ r) →
    (n, ds) ∈ p2 := by
  intro pending
  induction pending with
  | nil =>
    intro resolved r p2 prog heq n ds hmem
    exact absurd hmem (by simp)
  | cons q rest ih =>
    rcases q with ⟨name, deps⟩
    intro resolved r p2 prog heq n ds hmem hd
    rw [onePass] at heq
    by_cases hunk : unknownOf services deps ≠ []
    · rw [if_pos hunk] at heq
      cases heq
    · rw [if_neg hunk] at heq
      by_cases hall : deps.all (fun d => resolved.contains d) = true
      · rw [if_pos hall] at heq
        rcases h2 : onePass services (resolved ++ [name]) rest with e | ⟨r2, p3, prog2⟩ <;>
          rw [h2] at heq
        · cases heq
        · cases heq
          rcases List.mem_cons.mp hmem with hhd | htl
          · exfalso
            injection hhd with h1 h2eq
            subst h1
            subst h2eq
            rcases hd with ⟨d, hdds, hdr⟩
            apply hdr
            have hdres : d ∈ resolved := by
              have := (List.all_eq_true.mp hall) d hdds
              simpa using this
            exact onePass_mono services rest (resolved ++ [n]) _ _ _ h2 d
              (List.mem_append_left _ hdres)
          · exact ih (resolved ++ [name]) _ _ _ h2 n ds htl hd
      · rw [if_neg hall] at heq
        rcases h2 : onePass services resolved rest with e | ⟨r2, p3, prog2⟩ <;>
          rw [h2] at heq
        · cases heq
        · cases heq
          rcases List.mem_cons.mp hmem with hhd | htl
          · rw [hhd]
            exact List.mem_cons_self _ _
          · exact List.mem_cons_of_mem _ (ih resolved _ _ _ h2 n ds htl hd)

/-- A list with an element satisfying `p` has a first such element. -/
theorem exists_first_mem (p : String → Bool) (l : List String)
    (h : ∃ x ∈ l, p x = true) :
    ∃ l1 n l2, l = l1 ++ n :: l2 ∧ p n = true ∧ ∀ y ∈ l1, p y = false := by
  induction l with
  | nil =>
    rcases h with ⟨x, hx, _⟩
    exact absurd hx (by simp)
  | cons a as ih =>
    by_cases hpa : p a = true
    · exact ⟨[], a, as, rfl, hpa, by simp⟩
    · have h2 : ∃ x ∈ as, p x = true := by
        rcases h with ⟨x, hx, hpx⟩
        rcases List.mem_cons.mp hx with hxa | hxas
        · subst hxa
          exact absurd hpx hpa
        · exact ⟨x, hxas, hpx⟩
      rcases ih h2 with ⟨l1, n, l2, hsplit, hpn, hfirst⟩
      refine ⟨a :: l1, n, l2, by rw [hsplit]; rfl, hpn, ?_⟩
      intro y hy
      rcases List.mem_cons.mp hy with h3 | h3
      · subst h3
        exact Bool.eq_false_iff.mpr hpa
      · exact hfirst y h3

/-- No member of a dependency cycle can occur in a `Good` ordering: its first
member in the ordering would need an in-cycle dependency even earlier. -/
theorem good_disjoint_cycle (F : String → List String) (S : List String)
    (hSF : ∀ n ∈ S, ∃ d ∈ F n, d ∈ S) :
    ∀ r, Good F r → ∀ n ∈ S, n ∉ r := by
  intro r hgood n hn hnr
  have hex : ∃ x ∈ r, S.contains x = true := ⟨n, hnr, by simpa using hn⟩
  rcases exists_first_mem (fun x => S.contains x) r hex with
    ⟨l1, m, l2, hsplit, hpm, hfirst⟩
  have hmS : m ∈ S := by simpa using hpm
  rcases hSF m hmS with ⟨d, hdF, hdS⟩
  have hdl1 : d ∈ l1 := hgood.before l1 m l2 hsplit d hdF
  have hcontra := hfirst d hdl1
  rw [show S.contains d = true by simpa using hdS] at hcontra
  cases hcontra

/-- On a manifest containing a dependency cycle (with all dependencies
defined), the loop of `_service_start_order` raises the cycle `UsageError`,
and the pending set it reports contains every member of the cycle. -/
theorem orderLoop_cyclic (services : SvcList) (F : String → List String)
    (S : List String)
    (hdefAll : ∀ q ∈ services, ∀ d ∈ q.2, d ∈ svcNames services)
    (hFAll : ∀ q ∈ services, q.2 = F q.1)
    (hSne : S ≠ [])
    (hSF : ∀ n ∈ S, ∃ d ∈ F n, d ∈ S) :
    ∀ (fuel : Nat) (pending : SvcList) (resolved : List String),
    List.Sublist pending services →
    (∀ n ∈ S, ∃ ds, (n, ds) ∈ pending ∧ ∃ d ∈ ds, d ∈ S) →
    Good F resolved →
    ∃ stuck : SvcList,
      orderLoop services fuel resolved pending = Except.error (cycleMsg stuck) ∧
      ∀ n ∈ S, n ∈ svcNames stuck := by
  intro fuel
  induction fuel with
  | zero =>
    intro pending resolved hsub hSp hgood
    rcases hpe : pending with _ | ⟨q, rest⟩
    · exfalso
      subst hpe
      rcases List.exists_mem_of_ne_nil S hSne with ⟨n, hn⟩
      rcases hSp n hn with ⟨ds, hmem, _⟩
      exact absurd hmem (by simp)
    · subst hpe
      refine ⟨q :: rest, by rw [orderLoop], ?_⟩
      intro n hn
      rcases hSp n hn with ⟨ds, hmem, _⟩
      exact List.mem_map_of_mem Prod.fst hmem
  | succ f ihf =>
    intro pending resolved hsub hSp hgood
    rcases hpe : pending with _ | ⟨q, rest⟩
    · exfalso
      subst hpe
      rcases List.exists_mem_of_ne_nil S hSne with ⟨n, hn⟩
      rcases hSp n hn with ⟨ds, hmem, _⟩
      exact absurd hmem (by simp)
    · subst hpe
      have hdefPending : ∀ p ∈ q :: rest, ∀ d ∈ p.2, d ∈ svcNames services :=
        fun p hp => hdefAll p (hsub.subset hp)
      rcases onePass_ok services F (q :: rest) resolved hdefPending with
        ⟨new, p2, prog, heq, hiff, hsubp, hsubn, hpermp, hgoodp⟩
      have hgood2 : Good F (resolved ++ new) :=
        hgoodp (fun p hp => hFAll p (hsub.subset hp)) hgood
      have hdisj : ∀ n ∈ S, n ∉ resolved ++ new :=
        good_disjoint_cycle F S hSF _ hgood2
      have hSp2 : ∀ n ∈ S, ∃ ds, (n, ds) ∈ p2 ∧ ∃ d ∈ ds, d ∈ S := by
        intro n hn
        rcases hSp n hn with ⟨ds, hmem, d, hdds, hdS⟩
        refine ⟨ds, ?_, d, hdds, hdS⟩
        exact onePass_keep_pair services (q :: rest) resolved _ _ _ heq n ds hmem
          ⟨d, hdds, hdisj d hdS⟩
      by_cases hprog : prog = true
      · rcases ihf p2 (resolved ++ new) (hsubp.trans hsub) hSp2 hgood2 with
          ⟨stuck, hloop, hmem⟩
        refine ⟨stuck, ?_, hmem⟩
        rw [orderLoop, heq]
        simp only [hprog, if_pos]
        exact hloop
      · refine ⟨p2, ?_, ?_⟩
        · rw [orderLoop, heq]
          simp [hprog]
        · intro n hn
          rcases hSp2 n hn with ⟨ds, hmem, _⟩
          exact List.mem_map_of_mem Prod.fst hmem

/-- Membership is preserved by one insertion-sort step. -/
theorem mem_insertSorted (x y : String) (l : List String) :
    y ∈ insertSorted x l ↔ y = x ∨ y ∈ l := by
  induction l with
  | nil => simp [insertSorted]
  | cons a as ih =>
    by_cases h : strLe x a = true
    · rw [insertSorted, if_pos h]
      simp
    · rw [insertSorted, if_neg h]
      simp only [List.mem_cons, ih]
      tauto

/-- `sortStrings` keeps exactly the members of its input. -/
theorem mem_sortStrings (y : String) (l : List String) :
    y ∈ sortStrings l ↔ y ∈ l := by
  induction l with
  | nil => simp [sortStrings]
  | cons a as ih =>
    rw [sortStrings, mem_insertSorted]
    simp [ih]

/-- C4. For a manifest whose `depends_on` edges contain a cycle `S` (every
member depends on another member; all references defined; names unique),
`create up` raises the cycle `UsageError` before starting anything: the
outcome carries the `Cyclic depends_on detected among:` message, the
comma-joined sorted name list of the message contains every member of the
cycle, and the started list is empty. -/
theorem up_cyclic_depends_on_rejected (services : SvcList) (S : List String)
    (canStart : String → Bool)
    (hnodup : (svcNames services).Nodup)
    (hdefAll : ∀ q ∈ services, ∀ d ∈ q.2, d ∈ svcNames services)
    (hSne : S ≠ [])
    (hcyc : ∀ n ∈ S, ∃ q ∈ services, q.1 = n ∧ ∃ d ∈ q.2, d ∈ S) :
    ∃ stuck : SvcList,
      upModel canStart services = { errMsg := some (cycleMsg stuck), started := [] } ∧
      (∀ n ∈ S, n ∈ sortStrings (svcNames stuck)) := by
  have hFAll0 := depsOf_eq services hnodup
  have hFAll : ∀ q ∈ services, q.2 = depsOf services q.1 :=
    fun q hq => (hFAll0 q hq).symm
  have hSF : ∀ n ∈ S, ∃ d ∈ depsOf services n, d ∈ S := by
    intro n hn
    rcases hcyc n hn with ⟨q, hq, hq1, d, hdds, hdS⟩
    refine ⟨d, ?_, hdS⟩
    rw [← hq1, hFAll0 q hq]
    exact hdds
  have hSp : ∀ n ∈ S, ∃ ds, (n, ds) ∈ services ∧ ∃ d ∈ ds, d ∈ S := by
    intro n hn
    rcases hcyc n hn with ⟨q, hq, hq1, d, hdds, hdS⟩
    exact ⟨q.2, by rw [← hq1]; exact hq, d, hdds, hdS⟩
  rcases orderLoop_cyclic services (depsOf services) S hdefAll hFAll hSne hSF
      services.length services [] (List.Sublist.refl _) hSp Good.nil with
    ⟨stuck, hloop, hmem⟩
  refine ⟨stuck, ?_, ?_⟩
  · rw [upModel, _service_start_order, hloop]
  · intro n hn
    rw [mem_sortStrings]
    exact hmem n hn

/-- The cyclic two-service manifest of the spec's scenario 3. -/
def cyclicServices : SvcList := [("a", ["b"]), ("b", ["a"])]

/-- C4 witness: `a depends_on b`, `b depends_on a` makes `up` report
`Cyclic depends_on detected among: a, b` and start nothing. -/
theorem up_cyclic_depends_on_rejected_witness :
    (∃ stuck : SvcList,
      upModel (fun _ => true) cyclicServices
        = { errMsg := some (cycleMsg stuck), started := [] } ∧
      (∀ n ∈ ["a", "b"], n ∈ sortStrings (svcNames stuck))) ∧
    upModel (fun _ => true) cyclicServices
      = { errMsg := some "Cyclic depends_on detected among: a, b", started := [] } := by
  constructor
  · exact up_cyclic_depends_on_rejected cyclicServices ["a", "b"] (fun _ => true)
      (by decide) (by decide) (by decide) (by decide)
  · decide

end LockBox
